import Mathlib

/-!
Verification of the podcast RSS fetch pipeline: a shallow embedding of the
TypeScript sources (src/services/rss-processor.ts, src/services/downloader.ts,
src/services/opml-parser.ts, src/main.ts, src/db/schema) into Lean 4, with
theorems settling the specified behavioural claims.

Modelling conventions:
- The relational store is a `List` of rows; `SELECT ... LIMIT 1` is `List.find?`,
  `INSERT` appends, `UPDATE ... WHERE id = x` maps over the list replacing rows
  whose `id` matches.
- `new Date()` timestamps are `Nat` parameters; `uuidv4()` is a caller-supplied
  fresh identifier.
- JavaScript string falsiness (`undefined`/`null`/`""` are falsy) is modelled on
  `Option String`, where `none` stands for `undefined`/`null`.
- JavaScript string methods (`split`, `trim`, `startsWith`, `toLowerCase`,
  `substring`) are embedded as structurally recursive functions over the
  character list of the string, so that all definitions evaluate by kernel
  reduction.
- Network effects are abstracted as per-attempt outcome functions
  `Nat → Except String α` (attempt number to success or thrown error).
-/

namespace PodcastRssFetch


/-! ## JavaScript string primitives -/

/-- JavaScript `a || b` where `a : Option String` (null/undefined/"" are falsy)
and the fallback `b` is a plain string. -/
def orFalsyD (a : Option String) (b : String) : String :=
  match a with
  | some s => if s = "" then b else s
  | none => b

/-- JavaScript `a || b` where both operands are optional strings. -/
def orFalsyO (a b : Option String) : Option String :=
  match a with
  | some s => if s = "" then b else some s
  | none => b

/-- JavaScript `a || null`: collapses the falsy empty string to `null`. -/
def normFalsy (a : Option String) : Option String :=
  match a with
  | some s => if s = "" then none else some s
  | none => none

/-- Split a character list on a separator character; mirrors JavaScript
`String.prototype.split` with a single-character separator (the empty input
yields one empty field). -/
def splitOnCharAux (sep : Char) : List Char → List (List Char)
  | [] => [[]]
  | c :: rest =>
    if c = sep then
      [] :: splitOnCharAux sep rest
    else
      match splitOnCharAux sep rest with
      | [] => [[c]]
      | h :: t => (c :: h) :: t

/-- JavaScript `s.split(sep)` for a one-character separator. -/
def jsSplit (sep : Char) (s : String) : List String :=
  (splitOnCharAux sep s.data).map List.asString

/-- Whitespace as removed by JavaScript `trim` (restricted to the ASCII
whitespace characters that occur in this code's inputs). -/
def isJsWhitespace (c : Char) : Bool :=
  c = ' ' || c = '\t' || c = '\n' || c = '\r'

/-- JavaScript `s.trim()`. -/
def jsTrim (s : String) : String :=
  (((s.data.dropWhile isJsWhitespace).reverse.dropWhile isJsWhitespace).reverse).asString

/-- Does the first list start with the second? (helper for `jsStartsWith`). -/
def charsStartWith : List Char → List Char → Bool
  | _, [] => true
  | [], _ :: _ => false
  | c :: cs, p :: ps => c = p && charsStartWith cs ps

/-- JavaScript `s.startsWith(pat)` (case-sensitive, like the JS method). -/
def jsStartsWith (s pat : String) : Bool :=
  charsStartWith s.data pat.data

/-- JavaScript `s.toLowerCase()` (ASCII case mapping). -/
def jsToLower (s : String) : String :=
  (s.data.map Char.toLower).asString

/-- JavaScript `s.substring(0, n)`. -/
def jsTake (n : Nat) (s : String) : String :=
  (s.data.take n).asString

/-! ## Media downloader: file extensions and content types
(src/services/downloader.ts) -/

/-- The audio extensions recognised in the URL of an enclosure
(`['mp3', 'm4a', 'wav', 'flac', 'ogg']` in `determineFileExtension`). -/
def knownAudioExts : List String := ["mp3", "m4a", "wav", "flac", "ogg"]

/-- Embeds `Downloader.determineFileExtension` (downloader.ts): split the URL on
`.`, take the last part; if it is a known audio extension use it, otherwise
switch on the declared MIME type, defaulting to `mp3`. -/
def determineFileExtension (url : String) (contentType : Option String) : String :=
  let urlParts := jsSplit '.' url
  let lastPart := urlParts.getLastD ""
  if lastPart ∈ knownAudioExts then
    lastPart
  else if contentType = some "audio/mpeg" then "mp3"
  else if contentType = some "audio/mp4" ∨ contentType = some "audio/m4a" then "m4a"
  else if contentType = some "audio/wav" then "wav"
  else if contentType = some "audio/flac" then "flac"
  else if contentType = some "audio/ogg" then "ogg"
  else "mp3"

/-- Embeds `Downloader.determineContentTypeFromPath` (downloader.ts): lower-case
the last `.`-separated component of the path and map it to a MIME type,
defaulting to `audio/mpeg`. -/
def determineContentTypeFromPath (path : String) : String :=
  let extension := jsToLower ((jsSplit '.' path).getLastD "")
  if extension = "mp3" then "audio/mpeg"
  else if extension = "m4a" then "audio/mp4"
  else if extension = "wav" then "audio/wav"
  else if extension = "flac" then "audio/flac"
  else if extension = "ogg" then "audio/ogg"
  else "audio/mpeg"

/-- The spec's fixed MIME-type fallback mapping of §4.5 step 2, written from the
spec's words for comparison with the source-derived `determineFileExtension`:
derive the extension from the declared MIME type, defaulting to `mp3`. -/
def mimeToExt (contentType : Option String) : String :=
  if contentType = some "audio/mpeg" then "mp3"
  else if contentType = some "audio/mp4" ∨ contentType = some "audio/m4a" then "m4a"
  else if contentType = some "audio/wav" then "wav"
  else if contentType = some "audio/flac" then "flac"
  else if contentType = some "audio/ogg" then "ogg"
  else "mp3"

/-! ## OPML tree walker (src/services/opml-parser.ts)

An outline node carries an optional `xmlUrl` attribute and optionally nested
outlines, which `fast-xml-parser` represents either as a single object or as an
array of siblings. -/

mutual

/-- One OPML `outline` element: optional `@_xmlUrl` attribute and optional
nested outlines. -/
inductive Outline where
  | mk (xmlUrl : Option String) (children : Option Outlines)

/-- The `OpmlOutline | OpmlOutline[]` union: either a single node or a list of
sibling nodes. -/
inductive Outlines where
  | single (o : Outline)
  | many (os : List Outline)

end


/-- The push condition of `extractUrlsFromOutlines`: the attribute is present,
truthy, and non-blank after trimming (`outline['@_xmlUrl']` and
`xmlUrl && xmlUrl.trim() !== ''`). -/
def pushesUrl (xmlUrl : Option String) : Bool :=
  match xmlUrl with
  | some s => ¬ s = "" && ¬ jsTrim s = ""
  | none => false

mutual

/-- Embeds `OpmlParser.extractUrlsFromOutlines` (opml-parser.ts): normalise the
single-or-array argument to an array and loop; the `rssUrls` accumulator array
passed by reference is modelled as an explicit accumulator. -/
def extractUrlsFromOutlines : Outlines → List String → List String
  | .single o, acc => extractUrlsStep o acc
  | .many os, acc => extractUrlsLoop os acc

/-- The `for (const outline of outlinesArray)` loop of
`extractUrlsFromOutlines`. -/
def extractUrlsLoop : List Outline → List String → List String
  | [], acc => acc
  | o :: rest, acc => extractUrlsLoop rest (extractUrlsStep o acc)

/-- One iteration of the loop body: push the node's non-blank `xmlUrl`, then
recurse into `outline.outline` when present. -/
def extractUrlsStep : Outline → List String → List String
  | .mk xmlUrl children, acc =>
    let acc1 := if pushesUrl xmlUrl then acc ++ [xmlUrl.getD ""] else acc
    match children with
    | none => acc1
    | some cs => extractUrlsFromOutlines cs acc1

end


mutual

/-- Specification-level pre-order collection over the single-or-array union,
written from the spec's words: visit every node in depth-first pre-order and
collect every non-blank feed URL attribute in visitation order. -/
def preorderUrls : Outlines → List String
  | .single o => preorderUrlsNode o
  | .many os => preorderUrlsList os

/-- Specification-level pre-order collection over a sibling list. -/
def preorderUrlsList : List Outline → List String
  | [] => []
  | o :: rest => preorderUrlsNode o ++ preorderUrlsList rest

/-- Specification-level pre-order collection for a single node: the node's own
non-blank URL first, then its children's URLs. -/
def preorderUrlsNode : Outline → List String
  | .mk xmlUrl children =>
    (if pushesUrl xmlUrl then [xmlUrl.getD ""] else []) ++
    (match children with
     | none => []
     | some cs => preorderUrls cs)

end

/-! ## URL collector (src/main.ts)

`collectRssUrlsFromAllSources` reads `feed.txt`, then `feed.xml` as OPML, then
`feed.opml`, `podcasts.opml`, `subscriptions.opml`, keeping a `Set` of seen
URLs and an ordered output array. File reads and OPML parses that fail are
swallowed (`readRssUrlsFromFile`'s failure is caught; `parseOpmlFile` returns
`[]` on any error), so the text source is an `Option String` (file content or
unreadable) and each OPML source is the already-extracted URL list. -/

/-- The `for (const line of lines)` loop of `readRssUrlsFromFile` (main.ts):
push the trimmed line unless it is empty or starts with `#`. -/
def readLinesLoop : List String → List String → List String
  | [], urls => urls
  | line :: rest, urls =>
    let trimmedLine := jsTrim line
    if ¬ trimmedLine = "" ∧ jsStartsWith trimmedLine "#" = false then
      readLinesLoop rest (urls ++ [trimmedLine])
    else
      readLinesLoop rest urls

/-- Embeds `readRssUrlsFromFile` (main.ts): split the file content on newlines
and collect the non-blank, non-comment trimmed lines. -/
def readRssUrlsFromFile (content : String) : List String :=
  readLinesLoop (jsSplit '\n' content) []

/-- Specification-level description of the text source: the trimmed lines,
dropping lines empty after trimming or beginning with `#`. -/
def nonCommentLines (content : String) : List String :=
  (jsSplit '\n' content).filterMap (fun line =>
    if ¬ jsTrim line = "" ∧ jsStartsWith (jsTrim line) "#" = false then
      some (jsTrim line)
    else
      none)

/-- The `if (!urlSet.has(url)) { urlSet.add(url); allRssUrls.push(url) }` loop
of `collectRssUrlsFromAllSources`: membership in the set equals membership in
the ordered output collected so far. -/
def addUnique (acc : List String) : List String → List String
  | [] => acc
  | u :: rest => if u ∈ acc then addUnique acc rest else addUnique (acc ++ [u]) rest

/-- The URLs contributed by the `feed.txt` source (`none` when the file could
not be read, in which case the catch block contributes nothing). -/
def textSourceUrls (feedTxt : Option String) : List String :=
  match feedTxt with
  | some content => readRssUrlsFromFile content
  | none => []

/-- Embeds `collectRssUrlsFromAllSources` (main.ts): text source first, then
the OPML sources in the fixed order feed.xml, feed.opml, podcasts.opml,
subscriptions.opml, deduplicating by exact string; errors with the
no-feed-sources message when nothing was collected. -/
def collectRssUrlsFromAllSources (feedTxt : Option String)
    (feedXmlUrls feedOpmlUrls podcastsOpmlUrls subscriptionsOpmlUrls : List String) :
    Except String (List String) :=
  let a1 := addUnique [] (textSourceUrls feedTxt)
  let a2 := addUnique a1 feedXmlUrls
  let a3 := addUnique a2 feedOpmlUrls
  let a4 := addUnique a3 podcastsOpmlUrls
  let a5 := addUnique a4 subscriptionsOpmlUrls
  if a5.length = 0 then
    Except.error "No RSS URLs found in any data source"
  else
    Except.ok a5

/-- Specification-level first-occurrence deduplication: keep an element iff it
has not been seen before. -/
def dedupFirstAux (seen : List String) : List String → List String
  | [] => []
  | u :: rest =>
    if u ∈ seen then dedupFirstAux seen rest else u :: dedupFirstAux (u :: seen) rest

/-! ## Relational schema (src/db/schema)

Rows of the `podcasts` and `episodes` tables, with `timestamp` columns as
`Nat` and `uuid`/`varchar`/`text` columns as `String`. -/

/-- A row of the `podcasts` table. -/
structure Podcast where
  id : String
  tenantId : String
  title : String
  description : Option String
  link : Option String
  language : Option String
  copyright : Option String
  author : Option String
  email : Option String
  imageUrl : Option String
  category : Option String
  explicit : Bool
  rssUrl : String
  createdAt : Nat
  updatedAt : Nat
deriving DecidableEq, Repr

/-- A row of the `episodes` table. -/
structure Episode where
  id : String
  podcastId : String
  title : String
  description : Option String
  link : Option String
  enclosureUrl : Option String
  enclosureType : Option String
  enclosureLength : Option Int
  guid : String
  pubDate : Option String
  duration : Option String
  episodeNumber : Option Int
  episodeType : Option String
  imageUrl : Option String
  explicit : Bool
  downloadSuccess : Bool
  downloadedAt : Option Nat
  minioPath : Option String
  createdAt : Nat
  updatedAt : Nat
deriving DecidableEq, Repr

/-! ## Parsed feed objects (rss-parser output, as consumed by
rss-processor.ts) -/

/-- An item's enclosure as delivered by the parser (`url`, `type`, `length`,
each possibly missing). -/
structure Enclosure where
  url : Option String
  mimeType : Option String
  length : Option String
deriving DecidableEq, Repr

/-- A parsed feed item, restricted to the fields `insertEpisodeIfNotExists`
reads. -/
structure Item where
  title : Option String
  contentSnippet : Option String
  content : Option String
  link : Option String
  guid : Option String
  enclosure : Option Enclosure
  pubDate : Option String
  duration : Option String
  episodeNumber : Option String
  episodeType : Option String
  itunesImageHref : Option String
  explicit : Option String
deriving DecidableEq, Repr

/-- A parsed feed, restricted to the fields `insertOrUpdatePodcast` reads
(`feed.image?.url` is `imageUrl`, `feed.itunesImage?.href` is
`itunesImageHref`, `feed.itunesCategory?.text` is `itunesCategoryText`). -/
structure Feed where
  title : Option String
  description : Option String
  link : Option String
  language : Option String
  copyright : Option String
  itunesAuthor : Option String
  creator : Option String
  managingEditor : Option String
  imageUrl : Option String
  itunesImageHref : Option String
  itunesCategoryText : Option String
  itunesExplicit : Option String
  items : List Item
deriving DecidableEq, Repr

/-! ## Feed upsert engine (src/services/rss-processor.ts) -/

/-- The fixed default tenant identifier of `insertOrUpdatePodcast`. -/
def defaultTenantId : String := "00000000-0000-0000-0000-000000000001"

/-- The `podcastData` object of `insertOrUpdatePodcast`, applied to a row as
the SQL UPDATE applies its SET list: every column in `podcastData` is
overwritten, the others (`id`, `createdAt`) are kept. -/
def applyPodcastData (feed : Feed) (rssUrl : String) (now : Nat) (row : Podcast) : Podcast :=
  { row with
    tenantId := defaultTenantId
    title := orFalsyD feed.title "Unknown"
    description := normFalsy feed.description
    link := normFalsy feed.link
    language := normFalsy feed.language
    copyright := normFalsy feed.copyright
    author := orFalsyO feed.itunesAuthor (normFalsy feed.creator)
    email := normFalsy feed.managingEditor
    imageUrl := orFalsyO feed.imageUrl (normFalsy feed.itunesImageHref)
    category := normFalsy feed.itunesCategoryText
    explicit := feed.itunesExplicit = some "yes"
    rssUrl := rssUrl
    updatedAt := now }

/-- The freshly inserted podcast row (`{ id: uuidv4(), ...podcastData,
createdAt: new Date() }`). -/
def newPodcastRow (feed : Feed) (rssUrl freshId : String) (now : Nat) : Podcast :=
  applyPodcastData feed rssUrl now
    { id := freshId
      tenantId := defaultTenantId
      title := ""
      description := none
      link := none
      language := none
      copyright := none
      author := none
      email := none
      imageUrl := none
      category := none
      explicit := false
      rssUrl := rssUrl
      createdAt := now
      updatedAt := now }

/-- Embeds `RssProcessor.insertOrUpdatePodcast` (rss-processor.ts): select the
first row matching the feed URL; if present, UPDATE it (matched by its `id`)
with `podcastData`; otherwise INSERT a new row with a fresh identifier.
Returns the new table contents and the `.returning()` row. -/
def insertOrUpdatePodcast (db : List Podcast) (feed : Feed) (rssUrl freshId : String)
    (now : Nat) : List Podcast × Podcast :=
  match db.find? (fun p => p.rssUrl = rssUrl) with
  | some existing =>
    let updated := applyPodcastData feed rssUrl now existing
    (db.map (fun p => if p.id = existing.id then updated else p), updated)
  | none =>
    let inserted := newPodcastRow feed rssUrl freshId now
    (db ++ [inserted], inserted)

/-- The episode key of `insertEpisodeIfNotExists`:
`item.guid || item.link || podcastId_title`. -/
def episodeGuid (podcastId : String) (item : Item) : String :=
  orFalsyD item.guid (orFalsyD item.link (podcastId ++ "_" ++ orFalsyD item.title ""))

/-- JavaScript `x ? parseInt(x) : null` on an optional string field, with
`parseInt` of a non-numeric string (`NaN`) modelled as `none`. -/
def jsParseIntOpt (a : Option String) : Option Int :=
  match a with
  | some s => if s = "" then none else s.toInt?
  | none => none

/-- The freshly inserted episode row (`episodeData` in
`insertEpisodeIfNotExists`), with download state not-downloaded. -/
def newEpisodeRow (podcastId : String) (item : Item) (freshId : String) (now : Nat) :
    Episode :=
  { id := freshId
    podcastId := podcastId
    title := orFalsyD item.title "Unknown"
    description := orFalsyO item.contentSnippet (normFalsy item.content)
    link := normFalsy item.link
    enclosureUrl :=
      match item.enclosure with
      | some enc => normFalsy enc.url
      | none => none
    enclosureType :=
      match item.enclosure with
      | some enc => normFalsy enc.mimeType
      | none => none
    enclosureLength :=
      match item.enclosure with
      | some enc => jsParseIntOpt enc.length
      | none => none
    guid := episodeGuid podcastId item
    pubDate := normFalsy item.pubDate
    duration := normFalsy item.duration
    episodeNumber := jsParseIntOpt item.episodeNumber
    episodeType := normFalsy item.episodeType
    imageUrl := normFalsy item.itunesImageHref
    explicit := item.explicit = some "yes"
    downloadSuccess := false
    downloadedAt := none
    minioPath := none
    createdAt := now
    updatedAt := now }

/-- Embeds `RssProcessor.insertEpisodeIfNotExists` (rss-processor.ts): compute
the GUID-fallback key, select the first row with that `guid` (globally, not
scoped to the podcast); if found return without touching the table, otherwise
INSERT the new row. -/
def insertEpisodeIfNotExists (db : List Episode) (podcastId : String) (item : Item)
    (freshId : String) (now : Nat) : List Episode :=
  let guid := episodeGuid podcastId item
  match db.find? (fun e => e.guid = guid) with
  | some _ => db
  | none => db ++ [newEpisodeRow podcastId item freshId now]

/-! ## Download bookkeeping (src/services/downloader.ts) -/

/-- Embeds `Downloader.markDownloadSuccess`: UPDATE the row with the given id,
setting `downloadSuccess`, `downloadedAt`, `minioPath`, `updatedAt`. -/
def markDownloadSuccess (db : List Episode) (episodeId minioPath : String) (now : Nat) :
    List Episode :=
  db.map (fun e =>
    if e.id = episodeId then
      { e with
        downloadSuccess := true
        downloadedAt := some now
        minioPath := some minioPath
        updatedAt := now }
    else e)

/-- Embeds `Downloader.markDownloadFailed`: UPDATE the row with the given id,
setting only `downloadSuccess := false` and `updatedAt`. -/
def markDownloadFailed (db : List Episode) (episodeId : String) (now : Nat) :
    List Episode :=
  db.map (fun e =>
    if e.id = episodeId then
      { e with downloadSuccess := false, updatedAt := now }
    else e)

/-- Embeds `Downloader.getUndownloadedEpisodes`: SELECT episodes with
`downloadSuccess = false`, LIMIT 1000. -/
def getUndownloadedEpisodes (db : List Episode) : List Episode :=
  (db.filter (fun e => e.downloadSuccess = false)).take 1000

/-- A concrete feed with only a title, used to instantiate theorems at small
inputs. -/
def titleOnlyFeed (t : Option String) : Feed :=
  { title := t
    description := none
    link := none
    language := none
    copyright := none
    itunesAuthor := none
    creator := none
    managingEditor := none
    imageUrl := none
    itunesImageHref := none
    itunesCategoryText := none
    itunesExplicit := none
    items := [] }

/-- A concrete item carrying only a GUID, used to instantiate theorems at
small inputs. -/
def guidOnlyItem (g : Option String) : Item :=
  { title := none
    contentSnippet := none
    content := none
    link := none
    guid := g
    enclosure := none
    pubDate := none
    duration := none
    episodeNumber := none
    episodeType := none
    itunesImageHref := none
    explicit := none }

/-- A concrete pending episode with the given id and enclosure URL, used to
instantiate theorems at small inputs. -/
def pendingEpisode (i : String) (encUrl : Option String) : Episode :=
  { id := i
    podcastId := "p"
    title := "t"
    description := none
    link := none
    enclosureUrl := encUrl
    enclosureType := none
    enclosureLength := none
    guid := "g-" ++ i
    pubDate := none
    duration := none
    episodeNumber := none
    episodeType := none
    imageUrl := none
    explicit := false
    downloadSuccess := false
    downloadedAt := none
    minioPath := none
    createdAt := 0
    updatedAt := 0 }

/-! ## Retry with backoff (rss-processor.ts / downloader.ts) -/

/-- The observable behaviour of one run of a retry loop: how many attempts
were made, the sleeps inserted between attempts (in milliseconds), and the
final outcome. -/
structure RetryTrace (α : Type) where
  attemptsMade : Nat
  sleeps : List Nat
  result : Except String α
deriving Repr

/-- The `for (let attempt = 1; attempt <= maxRetries; attempt++)` retry loop
shared by `RssProcessor.processRssFeed` and
`Downloader.downloadAndUploadEpisode`: run the attempt body; on success stop;
on failure remember the error and, when another attempt remains
(`attempt < maxRetries`), sleep `Math.pow(2, attempt) * 1000` milliseconds;
after the final failure rethrow the last error. `fuel` counts the remaining
loop iterations (`maxRetries - attempt + 1`). -/
def retryGo {α : Type} (f : Nat → Except String α) (maxRetries : Nat) :
    Nat → Nat → Nat → List Nat → Option String → RetryTrace α
  | 0, _, made, sleeps, last =>
    { attemptsMade := made
      sleeps := sleeps
      result := Except.error (last.getD "no attempts made") }
  | fuel + 1, attempt, made, sleeps, _last =>
    match f attempt with
    | Except.ok v =>
      { attemptsMade := made + 1, sleeps := sleeps, result := Except.ok v }
    | Except.error e =>
      retryGo f maxRetries fuel (attempt + 1) (made + 1)
        (if attempt < maxRetries then sleeps ++ [2 ^ attempt * 1000] else sleeps)
        (some e)

/-- `RssProcessor.processRssFeed` (rss-processor.ts): `maxRetries = 3`
attempts of the per-attempt body (fetch, validate, parse, upsert), with
exponential backoff between failed attempts. -/
def processRssFeedTrace (attemptBody : Nat → Except String Unit) : RetryTrace Unit :=
  retryGo attemptBody 3 3 1 0 [] none

/-- `Downloader.downloadAndUploadEpisode` (downloader.ts): throw immediately
when the episode has no (or an empty, hence falsy) enclosure URL, otherwise
run `maxRetries = 3` download attempts with the same backoff loop. -/
def downloadAndUploadEpisodeTrace (e : Episode)
    (attemptBody : Nat → Except String Unit) : RetryTrace Unit :=
  match e.enclosureUrl with
  | none =>
    { attemptsMade := 0, sleeps := [], result := Except.error "No enclosure URL found" }
  | some u =>
    if u = "" then
      { attemptsMade := 0, sleeps := [], result := Except.error "No enclosure URL found" }
    else
      retryGo attemptBody 3 3 1 0 [] none

/-- The per-URL loop of `main` (main.ts): each URL's `processRssFeed` outcome
is caught and logged and the loop continues with the next URL, so every URL is
processed exactly once whatever the outcomes. -/
def runFetchPipeline (outcome : String → Except String Unit) :
    List String → List (String × Except String Unit)
  | [] => []
  | u :: rest => (u, outcome u) :: runFetchPipeline outcome rest

/-! ## Download batch loop (src/services/downloader.ts) -/

/-- The `for` loop of `downloadAllUndownloadedEpisodes` over the pending list:
on success, `downloadAndUploadEpisode` has already recorded the success
(`markDownloadSuccess` with the staged filename `<id>.<extension>`); on error
the loop marks the episode failed; either way it continues with the next
episode. Returns the final table and the success/failure counts. -/
def processPendingEpisodes (att : Episode → Nat → Except String Unit) (now : Nat) :
    List Episode → List Episode → List Episode × Nat × Nat
  | [], db => (db, 0, 0)
  | e :: rest, db =>
    match (downloadAndUploadEpisodeTrace e (att e)).result with
    | Except.ok _ =>
      let fileExtension := determineFileExtension (e.enclosureUrl.getD "") e.enclosureType
      let db1 := markDownloadSuccess db e.id (e.id ++ "." ++ fileExtension) now
      let r := processPendingEpisodes att now rest db1
      (r.1, r.2.1 + 1, r.2.2)
    | Except.error _ =>
      let db1 := markDownloadFailed db e.id now
      let r := processPendingEpisodes att now rest db1
      (r.1, r.2.1, r.2.2 + 1)

/-- Embeds `Downloader.downloadAllUndownloadedEpisodes` (downloader.ts): list
the pending episodes, then run the batch loop over them. -/
def downloadAllUndownloadedEpisodes (att : Episode → Nat → Except String Unit)
    (now : Nat) (db : List Episode) : List Episode × Nat × Nat :=
  processPendingEpisodes att now (getUndownloadedEpisodes db) db

/-! ## Feed fetch validation (src/services/rss-processor.ts) -/

/-- The relevant parts of a `fetch` response. -/
structure FetchResponse where
  ok : Bool
  status : Nat
  statusText : String
  contentType : Option String
  body : String
deriving DecidableEq, Repr

/-- The errors thrown by one attempt body of `processRssFeed`. -/
inductive FeedError where
  | httpStatus (status : Nat) (statusText : String)
  | invalidContent (contentType : String) (bodyStart : String)
  | parseFailure (message : String)
deriving DecidableEq, Repr

/-- Does one of the tokens `<?xml`, `<rss`, `<feed` occur at the head of this
character list, case-insensitively (the `/<\?xml|<rss|<feed/i` regex of
`cleanXmlContent`)? -/
def isXmlTokenAt (cs : List Char) : Bool :=
  charsStartWith (cs.map Char.toLower) "<?xml".data ||
  charsStartWith (cs.map Char.toLower) "<rss".data ||
  charsStartWith (cs.map Char.toLower) "<feed".data

/-- `cleaned.search(/<\?xml|<rss|<feed/i)`: the index of the first match, if
any. -/
def xmlSearchIndex : List Char → Option Nat
  | [] => none
  | c :: cs =>
    if isXmlTokenAt (c :: cs) then some 0
    else (xmlSearchIndex cs).map (fun n => n + 1)

/-- Embeds `RssProcessor.cleanXmlContent` (rss-processor.ts): trim, drop any
characters before the first XML/RSS/Atom token, and strip a leading byte-order
mark. -/
def cleanXmlContent (content : String) : String :=
  let cleaned := jsTrim content
  let cleaned :=
    match xmlSearchIndex cleaned.data with
    | some i => if i > 0 then (cleaned.data.drop i).asString else cleaned
    | none => cleaned
  match cleaned.data with
  | c :: rest => if c.toNat = 0xFEFF then rest.asString else cleaned
  | [] => cleaned

/-- Embeds the body of one attempt of `processRssFeed` (rss-processor.ts) from
the HTTP response on: reject a non-ok response with the status; validate that
the trimmed body starts with `<?xml`, `<rss` or `<feed` (three exact,
case-sensitive `startsWith` calls), failing with the content-type header and
the first 100 characters of the trimmed body; only then clean the content and
hand it to the parser. The parser is a parameter so that independence of the
result from it witnesses that rejection happens before parsing. -/
def attemptFetchParse (resp : FetchResponse) (parse : String → Except String Feed) :
    Except FeedError Feed :=
  if resp.ok = false then
    Except.error (FeedError.httpStatus resp.status resp.statusText)
  else
    let contentType := resp.contentType.getD ""
    let trimmedText := jsTrim resp.body
    if (jsStartsWith trimmedText "<?xml" || jsStartsWith trimmedText "<rss" ||
        jsStartsWith trimmedText "<feed") = false then
      Except.error (FeedError.invalidContent contentType (jsTake 100 trimmedText))
    else
      match parse (cleanXmlContent resp.body) with
      | Except.ok feed => Except.ok feed
      | Except.error msg => Except.error (FeedError.parseFailure msg)

/-- A concrete HTTP-200 response with content type `text/html` and the given
body, used to instantiate theorems at small inputs. -/
def htmlResponse (body : String) : FetchResponse :=
  { ok := true
    status := 200
    statusText := "OK"
    contentType := some "text/html"
    body := body }

/-! ## Theorems -/

/-- C8: `determineFileExtension` returns the URL's trailing `.`-segment when it
is one of mp3/m4a/wav/flac/ogg; otherwise it falls back to the fixed MIME-type
mapping (default mp3); and the concrete scenario: enclosure type `audio/flac`
with an extensionless URL yields extension `flac`. -/
theorem determineFileExtension_spec (url : String) (ct : Option String) :
    ((jsSplit '.' url).getLastD "" ∈ knownAudioExts →
      determineFileExtension url ct = (jsSplit '.' url).getLastD "") ∧
    ((jsSplit '.' url).getLastD "" ∉ knownAudioExts →
      determineFileExtension url ct = mimeToExt ct) ∧
    determineFileExtension "https://example.com/audio" (some "audio/flac") = "flac" := by
  refine ⟨?_, ?_, by decide⟩
  · intro h
    simp only [determineFileExtension, if_pos h]
  · intro h
    simp only [determineFileExtension, if_neg h, mimeToExt]

/-- Witness for `determineFileExtension_spec` at a concrete input. -/
theorem determineFileExtension_spec_witness :
    determineFileExtension "https://x.example/a.mp3" none = "mp3" := by
  have h := (determineFileExtension_spec "https://x.example/a.mp3" none).1 (by decide)
  exact h.trans (by decide)

/-- C9: round trip on the five known extensions: if the path's lower-cased
trailing `.`-segment is a known audio extension `e`, then the upload
content-type for the path is mapped back to `e` by the MIME branch of
`determineFileExtension` (reached here with the extensionless URL `""`);
for any other trailing segment the upload content-type defaults to
`audio/mpeg`. -/
theorem contentType_extension_roundTrip (path : String) (e : String) :
    (e ∈ knownAudioExts → jsToLower ((jsSplit '.' path).getLastD "") = e →
      determineFileExtension "" (some (determineContentTypeFromPath path)) = e) ∧
    (jsToLower ((jsSplit '.' path).getLastD "") ∉ knownAudioExts →
      determineContentTypeFromPath path = "audio/mpeg") := by
  constructor
  · intro he hlast
    simp only [knownAudioExts, List.mem_cons, List.not_mem_nil, or_false] at he
    rcases he with h | h | h | h | h <;>
      subst h <;>
      simp only [determineContentTypeFromPath, hlast] <;>
      decide
  · intro hnot
    simp only [knownAudioExts, List.mem_cons, List.not_mem_nil, or_false, not_or] at hnot
    obtain ⟨h1, h2, h3, h4, h5⟩ := hnot
    simp only [determineContentTypeFromPath, if_neg h1, if_neg h2, if_neg h3, if_neg h4,
      if_neg h5]

/-- Witness for `contentType_extension_roundTrip` at a concrete input. -/
theorem contentType_extension_roundTrip_witness :
    determineFileExtension "" (some (determineContentTypeFromPath "a.flac")) = "flac" :=
  (contentType_extension_roundTrip "a.flac" "flac").1 (by decide) (by decide)


mutual

/-- The walker agrees with the pre-order specification (union form). -/
theorem extractUrlsFromOutlines_eq_preorder :
    ∀ (os : Outlines) (acc : List String),
      extractUrlsFromOutlines os acc = acc ++ preorderUrls os
  | .single o, acc => by
    rw [extractUrlsFromOutlines, preorderUrls, extractUrlsStep_eq_preorder]
  | .many os, acc => by
    rw [extractUrlsFromOutlines, preorderUrls, extractUrlsLoop_eq_preorder]

/-- The walker agrees with the pre-order specification (sibling-list form). -/
theorem extractUrlsLoop_eq_preorder :
    ∀ (os : List Outline) (acc : List String),
      extractUrlsLoop os acc = acc ++ preorderUrlsList os
  | [], acc => by rw [extractUrlsLoop, preorderUrlsList, List.append_nil]
  | o :: rest, acc => by
    rw [extractUrlsLoop, preorderUrlsList, extractUrlsLoop_eq_preorder,
      extractUrlsStep_eq_preorder, List.append_assoc]

/-- The walker agrees with the pre-order specification (single-node form). -/
theorem extractUrlsStep_eq_preorder :
    ∀ (o : Outline) (acc : List String),
      extractUrlsStep o acc = acc ++ preorderUrlsNode o
  | .mk xmlUrl children, acc => by
    cases children with
    | none =>
      simp only [extractUrlsStep, preorderUrlsNode]
      cases h : pushesUrl xmlUrl <;> simp [h]
    | some cs =>
      simp only [extractUrlsStep, preorderUrlsNode]
      rw [extractUrlsFromOutlines_eq_preorder]
      cases h : pushesUrl xmlUrl <;> simp [h]

end


/-- C7: for every OPML outline tree (children given as a single object or a
list of siblings), the walker visits the nodes in depth-first pre-order and
collects exactly the non-blank `xmlUrl` attributes, in visitation order,
appended after the accumulator it was given; nodes without the attribute
contribute nothing themselves, but their children are still visited (as the
`preorderUrls` equations state). -/
theorem extractUrls_preorder_spec (os : Outlines) (acc : List String) :
    extractUrlsFromOutlines os acc = acc ++ preorderUrls os ∧
    (∀ children,
      preorderUrlsNode (.mk none children) =
        (match children with
         | none => []
         | some cs => preorderUrls cs)) := by
  refine ⟨extractUrlsFromOutlines_eq_preorder os acc, ?_⟩
  intro children
  cases children <;> simp [preorderUrlsNode, pushesUrl]

theorem readLinesLoop_eq (lines : List String) :
    ∀ urls : List String,
      readLinesLoop lines urls =
        urls ++ lines.filterMap (fun line =>
          if ¬ jsTrim line = "" ∧ jsStartsWith (jsTrim line) "#" = false then
            some (jsTrim line)
          else
            none) := by
  induction lines with
  | nil => intro urls; simp [readLinesLoop]
  | cons line rest ih =>
    intro urls
    by_cases h : ¬ jsTrim line = "" ∧ jsStartsWith (jsTrim line) "#" = false
    · simp [readLinesLoop, List.filterMap_cons, ih, h]
    · simp [readLinesLoop, List.filterMap_cons, ih, h]

theorem addUnique_eq_dedup (us : List String) :
    ∀ acc seen : List String, (∀ x, x ∈ seen ↔ x ∈ acc) →
      addUnique acc us = acc ++ dedupFirstAux seen us := by
  induction us with
  | nil => intro acc seen _; simp [addUnique, dedupFirstAux]
  | cons u rest ih =>
    intro acc seen hiff
    by_cases h : u ∈ acc
    · rw [addUnique, if_pos h, dedupFirstAux, if_pos ((hiff u).2 h), ih acc seen hiff]
    · rw [addUnique, if_neg h, dedupFirstAux, if_neg (fun hs => h ((hiff u).1 hs))]
      rw [ih (acc ++ [u]) (u :: seen) (by
        intro x
        simp only [List.mem_cons, List.mem_append, List.mem_singleton, hiff x]
        tauto)]
      simp [List.append_assoc]

theorem addUnique_append (l1 l2 : List String) :
    ∀ acc : List String, addUnique acc (l1 ++ l2) = addUnique (addUnique acc l1) l2 := by
  induction l1 with
  | nil => intro acc; simp [addUnique]
  | cons u rest ih =>
    intro acc
    by_cases h : u ∈ acc <;> simp only [List.cons_append, addUnique, if_pos, if_neg, h,
      ite_true, ite_false] <;> exact ih _

theorem dedupFirstAux_nil_iff (l : List String) :
    dedupFirstAux [] l = [] ↔ l = [] := by
  cases l with
  | nil => simp [dedupFirstAux]
  | cons u rest => simp [dedupFirstAux]

/-- C6: the collector emits the text-file URLs first (trimmed lines, dropping
blank and `#`-prefixed lines, in file order), then the OPML sources in the
fixed priority order feed.xml, feed.opml, podcasts.opml, subscriptions.opml,
deduplicated by exact string equality keeping the first occurrence; it fails
with the no-feed-sources error exactly when zero URLs were collected across
all sources, and that is its only error. -/
theorem collectRssUrls_spec (feedTxt : Option String)
    (x1 x2 x3 x4 : List String) :
    (∀ content, readRssUrlsFromFile content = nonCommentLines content) ∧
    collectRssUrlsFromAllSources feedTxt x1 x2 x3 x4 =
      (if textSourceUrls feedTxt ++ x1 ++ x2 ++ x3 ++ x4 = [] then
        Except.error "No RSS URLs found in any data source"
      else
        Except.ok (dedupFirstAux [] (textSourceUrls feedTxt ++ x1 ++ x2 ++ x3 ++ x4))) := by
  constructor
  · intro content
    rw [readRssUrlsFromFile, nonCommentLines, readLinesLoop_eq, List.nil_append]
  · have hall : addUnique [] (textSourceUrls feedTxt ++ x1 ++ x2 ++ x3 ++ x4) =
        addUnique (addUnique (addUnique (addUnique (addUnique []
          (textSourceUrls feedTxt)) x1) x2) x3) x4 := by
      rw [addUnique_append, addUnique_append, addUnique_append, addUnique_append]
    have hdedup : addUnique [] (textSourceUrls feedTxt ++ x1 ++ x2 ++ x3 ++ x4) =
        dedupFirstAux [] (textSourceUrls feedTxt ++ x1 ++ x2 ++ x3 ++ x4) := by
      rw [addUnique_eq_dedup _ [] [] (fun x => Iff.rfl), List.nil_append]
    rw [collectRssUrlsFromAllSources, ← hall, hdedup]
    by_cases h : textSourceUrls feedTxt ++ x1 ++ x2 ++ x3 ++ x4 = []
    · rw [if_pos h, if_pos]
      rw [h]
      simp [dedupFirstAux]
    · rw [if_neg h, if_neg]
      intro hlen
      exact h ((dedupFirstAux_nil_iff _).1 (List.length_eq_zero.1 hlen))

/-! ## Generic list-as-table lemmas -/

theorem find?_eq_head?_filter {α : Type} (p : α → Bool) :
    ∀ l : List α, l.find? p = (l.filter p).head?
  | [] => rfl
  | a :: t => by
    by_cases h : p a = true
    · rw [List.find?_cons_of_pos _ h, List.filter_cons_of_pos h, List.head?_cons]
    · rw [List.find?_cons_of_neg _ (by simp [h]),
        List.filter_cons_of_neg (by simp [h]), find?_eq_head?_filter p t]

theorem map_eq_self_of {α : Type} (g : α → α) :
    ∀ l : List α, (∀ x ∈ l, g x = x) → l.map g = l
  | [], _ => rfl
  | a :: t, h => by
    rw [List.map_cons, h a (List.mem_cons_self a t),
      map_eq_self_of g t (fun x hx => h x (List.mem_cons_of_mem a hx))]

theorem map_key_map {α : Type} (key : α → String) (g : α → α)
    (hg : ∀ x, key (g x) = key x) :
    ∀ db : List α, (db.map g).map key = db.map key
  | [] => rfl
  | a :: t => by
    rw [List.map_cons, List.map_cons, List.map_cons, hg, map_key_map key g hg t]

/-- An UPDATE matched on a key that is unique in the table rewrites exactly the
one matching row: if the rows satisfying `P` are exactly `[p0]`, keys are
unique, and the replacement `q` satisfies `P`, then after replacing the row
with `p0`'s key by `q` the rows satisfying `P` are exactly `[q]`. -/
theorem filter_keyReplace {α : Type} (key : α → String) (P : α → Bool) (q : α)
    (hq : P q = true) :
    ∀ (db : List α) (p0 : α), (db.map key).Nodup → db.filter P = [p0] →
      (db.map (fun p => if key p = key p0 then q else p)).filter P = [q]
  | [], p0 => by intro _ hfilter; simp at hfilter
  | a :: t, p0 => by
    intro hIds hfilter
    rw [List.map_cons, List.nodup_cons] at hIds
    obtain ⟨hka, hnt⟩ := hIds
    by_cases hPa : P a = true
    · -- the head is the matching row: p0 = a and the tail has no match
      rw [List.filter_cons_of_pos hPa] at hfilter
      obtain ⟨rfl, htail⟩ : a = p0 ∧ t.filter P = [] := by
        simpa using hfilter
      rw [List.map_cons, if_pos rfl, List.filter_cons_of_pos hq,
        map_eq_self_of _ t (fun x hx => by
          rw [if_neg]
          intro hkey
          exact hka (hkey ▸ List.mem_map_of_mem key hx))]
      rw [htail]
    · -- the head does not match; the matching row is in the tail
      rw [List.filter_cons_of_neg (by simp [hPa])] at hfilter
      have hp0t : p0 ∈ t := List.mem_of_mem_filter (hfilter ▸ List.mem_singleton_self p0)
      have hkey : ¬ key a = key p0 := by
        intro hkey
        exact hka (hkey ▸ List.mem_map_of_mem key hp0t)
      rw [List.map_cons, if_neg hkey, List.filter_cons_of_neg (by simp [hPa]),
        filter_keyReplace key P q hq t p0 hnt hfilter]

/-! ## C1: podcast upsert -/

/-- Insert path of `insertOrUpdatePodcast`: no row matches the feed URL. -/
theorem upsertPodcast_insert (db : List Podcast) (f : Feed) (u fid : String) (t : Nat)
    (hnone : db.filter (fun p => p.rssUrl = u) = [])
    (hIds : (db.map (fun p => p.id)).Nodup)
    (hFresh : fid ∉ db.map (fun p => p.id)) :
    insertOrUpdatePodcast db f u fid t =
      (db ++ [newPodcastRow f u fid t], newPodcastRow f u fid t) ∧
    (db ++ [newPodcastRow f u fid t]).filter (fun p => p.rssUrl = u) =
      [newPodcastRow f u fid t] ∧
    ((db ++ [newPodcastRow f u fid t]).map (fun p => p.id)).Nodup := by
  have hfind : db.find? (fun p => p.rssUrl = u) = none := by
    rw [find?_eq_head?_filter, hnone]; rfl
  refine ⟨by rw [insertOrUpdatePodcast, hfind], ?_, ?_⟩
  · rw [List.filter_append, hnone, List.nil_append, List.filter_cons_of_pos (by
      simp [newPodcastRow, applyPodcastData])]
    rfl
  · rw [List.map_append]
    refine List.Nodup.append hIds (by simp) ?_
    intro x hx hx2
    have : x = fid := by
      simpa [newPodcastRow, applyPodcastData] using hx2
    exact hFresh (this ▸ hx)

/-- Update path of `insertOrUpdatePodcast`: exactly one row matches the feed
URL. -/
theorem upsertPodcast_update (db : List Podcast) (f : Feed) (u fid : String) (t : Nat)
    (p0 : Podcast)
    (hIds : (db.map (fun p => p.id)).Nodup)
    (hfilter : db.filter (fun p => p.rssUrl = u) = [p0]) :
    insertOrUpdatePodcast db f u fid t =
      (db.map (fun p => if p.id = p0.id then applyPodcastData f u t p0 else p),
        applyPodcastData f u t p0) ∧
    (db.map (fun p => if p.id = p0.id then applyPodcastData f u t p0 else p)).filter
        (fun p => p.rssUrl = u) = [applyPodcastData f u t p0] ∧
    ((db.map (fun p => if p.id = p0.id then applyPodcastData f u t p0 else p)).map
        (fun p => p.id)).Nodup := by
  have hfind : db.find? (fun p => p.rssUrl = u) = some p0 := by
    rw [find?_eq_head?_filter, hfilter]; rfl
  have hrepl := filter_keyReplace (fun p => p.id) (fun p => decide (p.rssUrl = u))
    (applyPodcastData f u t p0) (by simp [applyPodcastData]) db p0 hIds hfilter
  refine ⟨by rw [insertOrUpdatePodcast, hfind], hrepl, ?_⟩
  have hg : ∀ x : Podcast,
      (if x.id = p0.id then applyPodcastData f u t p0 else x).id = x.id := by
    intro x
    by_cases hx : x.id = p0.id
    · rw [if_pos hx]; exact hx.symm
    · rw [if_neg hx]
  have heq := map_key_map (fun p => p.id)
    (fun p => if p.id = p0.id then applyPodcastData f u t p0 else p) hg db
  rw [heq]
  exact hIds

/-- C1: upserting a feed URL twice leaves exactly one podcast row for that URL,
carrying the second feed's metadata and the second timestamp, while the second
upsert preserves the row's id, feed URL, tenant and creation time. Hypotheses
are the database invariants: primary-key uniqueness, freshness of the generated
uuid, and the unique constraint on `rss_url`. -/
theorem upsertPodcast_twice (db : List Podcast) (f1 f2 : Feed) (u id1 id2 : String)
    (t1 t2 : Nat)
    (hIds : (db.map (fun p => p.id)).Nodup)
    (hFresh : id1 ∉ db.map (fun p => p.id))
    (hUniq : (db.filter (fun p => p.rssUrl = u)).length ≤ 1) :
    ∃ db1 p1 db2 p2,
      insertOrUpdatePodcast db f1 u id1 t1 = (db1, p1) ∧
      insertOrUpdatePodcast db1 f2 u id2 t2 = (db2, p2) ∧
      db2.filter (fun p => p.rssUrl = u) = [p2] ∧
      p2 = applyPodcastData f2 u t2 p1 ∧
      p2.id = p1.id ∧ p2.rssUrl = u ∧ p1.rssUrl = u ∧
      p2.tenantId = p1.tenantId ∧ p2.createdAt = p1.createdAt ∧
      p2.title = orFalsyD f2.title "Unknown" ∧ p2.updatedAt = t2 := by
  by_cases hcase : db.filter (fun p => p.rssUrl = u) = []
  · -- first upsert inserts a fresh row
    obtain ⟨heq1, hfilter1, hIds1⟩ := upsertPodcast_insert db f1 u id1 t1 hcase hIds hFresh
    obtain ⟨heq2, hfilter2, _⟩ :=
      upsertPodcast_update _ f2 u id2 t2 (newPodcastRow f1 u id1 t1) hIds1 hfilter1
    refine ⟨_, _, _, _, heq1, heq2, hfilter2, rfl, ?_⟩
    simp [applyPodcastData, newPodcastRow]
  · -- first upsert updates the existing row
    obtain ⟨p0, hp0⟩ : ∃ p0, db.filter (fun p => p.rssUrl = u) = [p0] := by
      cases hl : db.filter (fun p => p.rssUrl = u) with
      | nil => exact absurd hl hcase
      | cons a t =>
        cases t with
        | nil => exact ⟨a, rfl⟩
        | cons b t2 => rw [hl] at hUniq; simp at hUniq
    obtain ⟨heq1, hfilter1, hIds1⟩ := upsertPodcast_update db f1 u id1 t1 p0 hIds hp0
    obtain ⟨heq2, hfilter2, _⟩ :=
      upsertPodcast_update _ f2 u id2 t2 (applyPodcastData f1 u t1 p0) hIds1 hfilter1
    refine ⟨_, _, _, _, heq1, heq2, hfilter2, rfl, ?_⟩
    simp [applyPodcastData]

/-- Witness for `upsertPodcast_twice` on the empty table and two concrete
feeds. -/
theorem upsertPodcast_twice_witness :
    (([] : List Podcast).map (fun p => p.id)).Nodup ∧
    "a" ∉ ([] : List Podcast).map (fun p => p.id) ∧
    (([] : List Podcast).filter (fun p => p.rssUrl = "https://e.example/f")).length ≤ 1 ∧
    ∃ db1 p1 db2 p2,
      insertOrUpdatePodcast [] (titleOnlyFeed (some "T1"))
        "https://e.example/f" "a" 5 = (db1, p1) ∧
      insertOrUpdatePodcast db1 (titleOnlyFeed (some "T2"))
        "https://e.example/f" "b" 6 = (db2, p2) ∧
      db2.filter (fun p => p.rssUrl = "https://e.example/f") = [p2] ∧
      p2 = applyPodcastData (titleOnlyFeed (some "T2")) "https://e.example/f" 6 p1 ∧
      p2.id = p1.id ∧ p2.rssUrl = "https://e.example/f" ∧
      p1.rssUrl = "https://e.example/f" ∧
      p2.tenantId = p1.tenantId ∧ p2.createdAt = p1.createdAt ∧
      p2.title = orFalsyD (some "T2") "Unknown" ∧ p2.updatedAt = 6 :=
  ⟨by decide, by decide, by decide,
    upsertPodcast_twice [] (titleOnlyFeed (some "T1")) (titleOnlyFeed (some "T2"))
      "https://e.example/f" "a" "b" 5 6 (by decide) (by decide) (by decide)⟩

/-! ## C2: episode insert-if-not-exists -/

/-- Skip path of `insertEpisodeIfNotExists`: a row with the computed key
already exists, so the table is returned untouched. -/
theorem insertEpisode_skip (db : List Episode) (pid : String) (item : Item)
    (fid : String) (t : Nat) (e : Episode) (he : e ∈ db)
    (hg : e.guid = episodeGuid pid item) :
    insertEpisodeIfNotExists db pid item fid t = db := by
  have hfind : (db.find? (fun e => decide (e.guid = episodeGuid pid item))).isSome := by
    rw [List.find?_isSome]
    exact ⟨e, he, by simp [hg]⟩
  cases h : db.find? (fun e => decide (e.guid = episodeGuid pid item)) with
  | none => rw [h] at hfind; cases hfind
  | some x => simp [insertEpisodeIfNotExists, h]

/-- Insert path of `insertEpisodeIfNotExists`: no row with the computed key
exists, so exactly one new row is appended. -/
theorem insertEpisode_new (db : List Episode) (pid : String) (item : Item)
    (fid : String) (t : Nat)
    (hnone : ∀ e ∈ db, ¬ e.guid = episodeGuid pid item) :
    insertEpisodeIfNotExists db pid item fid t =
      db ++ [newEpisodeRow pid item fid t] := by
  have hfind : db.find? (fun e => decide (e.guid = episodeGuid pid item)) = none := by
    rw [List.find?_eq_none]
    intro e he
    simp [hnone e he]
  simp [insertEpisodeIfNotExists, hfind]

/-- C2: the episode key is GUID, then item link, then the synthetic
`podcastId_title` key; when a row with that key exists the operation changes
nothing; otherwise it appends exactly one row whose download state is
not-downloaded (`downloadSuccess = false`, no download timestamp, no storage
path); and inserting two items with the same computed GUID into a table
without that GUID leaves exactly one row with that GUID. -/
theorem insertEpisode_spec (db : List Episode) (pid1 pid2 : String)
    (item1 item2 : Item) (id1 id2 : String) (t1 t2 : Nat) :
    episodeGuid pid1 item1 =
      orFalsyD item1.guid
        (orFalsyD item1.link (pid1 ++ "_" ++ orFalsyD item1.title "")) ∧
    ((∃ e ∈ db, e.guid = episodeGuid pid1 item1) →
      insertEpisodeIfNotExists db pid1 item1 id1 t1 = db) ∧
    ((∀ e ∈ db, ¬ e.guid = episodeGuid pid1 item1) →
      insertEpisodeIfNotExists db pid1 item1 id1 t1 =
        db ++ [newEpisodeRow pid1 item1 id1 t1] ∧
      (newEpisodeRow pid1 item1 id1 t1).guid = episodeGuid pid1 item1 ∧
      (newEpisodeRow pid1 item1 id1 t1).downloadSuccess = false ∧
      (newEpisodeRow pid1 item1 id1 t1).downloadedAt = none ∧
      (newEpisodeRow pid1 item1 id1 t1).minioPath = none) ∧
    (episodeGuid pid2 item2 = episodeGuid pid1 item1 →
      (∀ e ∈ db, ¬ e.guid = episodeGuid pid1 item1) →
      ((insertEpisodeIfNotExists (insertEpisodeIfNotExists db pid1 item1 id1 t1)
          pid2 item2 id2 t2).filter
        (fun e => e.guid = episodeGuid pid1 item1)).length = 1) := by
  refine ⟨rfl, ?_, ?_, ?_⟩
  · intro ⟨e, he, hg⟩
    exact insertEpisode_skip db pid1 item1 id1 t1 e he hg
  · intro hnone
    exact ⟨insertEpisode_new db pid1 item1 id1 t1 hnone, rfl, rfl, rfl, rfl⟩
  · intro hg hnone
    rw [insertEpisode_new db pid1 item1 id1 t1 hnone]
    rw [insertEpisode_skip (db ++ [newEpisodeRow pid1 item1 id1 t1]) pid2 item2 id2 t2
      (newEpisodeRow pid1 item1 id1 t1)
      (List.mem_append_right db (List.mem_singleton_self _)) (by rw [hg]; rfl)]
    rw [List.filter_append]
    have hdb : db.filter (fun e => decide (e.guid = episodeGuid pid1 item1)) = [] := by
      rw [List.filter_eq_nil_iff]
      intro e he
      simp [hnone e he]
    rw [hdb, List.nil_append]
    have hp : (fun e : Episode => decide (e.guid = episodeGuid pid1 item1))
        (newEpisodeRow pid1 item1 id1 t1) = true := decide_eq_true rfl
    simp [List.filter_singleton, hp]

/-- Witness for `insertEpisode_spec`: inserting the same GUID twice into the
empty table leaves exactly one row with that GUID. -/
theorem insertEpisode_spec_witness :
    ((insertEpisodeIfNotExists
        (insertEpisodeIfNotExists [] "p" (guidOnlyItem (some "g")) "e1" 1)
        "p" (guidOnlyItem (some "g")) "e2" 2).filter
      (fun e => e.guid = episodeGuid "p" (guidOnlyItem (some "g")))).length = 1 :=
  (insertEpisode_spec [] "p" "p" (guidOnlyItem (some "g")) (guidOnlyItem (some "g"))
    "e1" "e2" 1 2).2.2.2 rfl (by simp)

/-! ## C10: failure marking is frame-preserving -/

/-- C10: `markDownloadFailed` touches only the row with the given id, and on
that row only `downloadSuccess` (rewritten to `false`, which it already was for
a pending episode) and `updatedAt`; every other field — in particular
`downloadedAt` and `minioPath` — is untouched, rows with other ids are
untouched, and the marked row still satisfies the pending predicate
`downloadSuccess = false`, so `getUndownloadedEpisodes` returns it again
(within the 1000-row cap). -/
theorem markDownloadFailed_frame (db : List Episode) (i : String) (now : Nat)
    (e : Episode) (he : e ∈ db) (hid : e.id = i)
    (hds : e.downloadSuccess = false)
    (hcap : ((markDownloadFailed db i now).filter
      (fun x => x.downloadSuccess = false)).length ≤ 1000) :
    { e with updatedAt := now } ∈ markDownloadFailed db i now ∧
    ({ e with updatedAt := now } : Episode).downloadSuccess = false ∧
    ({ e with updatedAt := now } : Episode).downloadedAt = e.downloadedAt ∧
    ({ e with updatedAt := now } : Episode).minioPath = e.minioPath ∧
    ({ e with updatedAt := now } : Episode).id = e.id ∧
    (∀ x ∈ db, ¬ x.id = i → x ∈ markDownloadFailed db i now) ∧
    { e with updatedAt := now } ∈ getUndownloadedEpisodes (markDownloadFailed db i now) := by
  have hmem : { e with updatedAt := now } ∈ markDownloadFailed db i now := by
    rw [markDownloadFailed]
    refine List.mem_map.2 ⟨e, he, ?_⟩
    rw [if_pos hid, ← hds]
  refine ⟨hmem, hds, rfl, rfl, rfl, ?_, ?_⟩
  · intro x hx hxid
    rw [markDownloadFailed]
    refine List.mem_map.2 ⟨x, hx, ?_⟩
    rw [if_neg hxid]
  · rw [getUndownloadedEpisodes, List.take_of_length_le hcap]
    exact List.mem_filter.2 ⟨hmem, decide_eq_true hds⟩

/-- Witness for `markDownloadFailed_frame` on a one-row table. -/
theorem markDownloadFailed_frame_witness :
    pendingEpisode "x" none ∈ [pendingEpisode "x" none] ∧
    (pendingEpisode "x" none).id = "x" ∧
    (pendingEpisode "x" none).downloadSuccess = false ∧
    ((markDownloadFailed [pendingEpisode "x" none] "x" 9).filter
      (fun x => x.downloadSuccess = false)).length ≤ 1000 ∧
    { pendingEpisode "x" none with updatedAt := 9 } ∈
      getUndownloadedEpisodes (markDownloadFailed [pendingEpisode "x" none] "x" 9) :=
  ⟨List.mem_singleton_self _, rfl, rfl, by decide,
    (markDownloadFailed_frame [pendingEpisode "x" none] "x" 9 (pendingEpisode "x" none)
      (List.mem_singleton_self _) rfl rfl (by decide)).2.2.2.2.2.2⟩

/-! ## C3: retry policy -/

/-- When all three attempts fail, the retry loop makes 3 attempts, sleeps 2s
then 4s between them, and rethrows the error of the third attempt. -/
theorem retry3_allfail {α : Type} (f : Nat → Except String α) (e1 e2 e3 : String)
    (h1 : f 1 = Except.error e1) (h2 : f 2 = Except.error e2)
    (h3 : f 3 = Except.error e3) :
    retryGo f 3 3 1 0 [] none =
      { attemptsMade := 3, sleeps := [2000, 4000], result := Except.error e3 } := by
  norm_num [retryGo, h1, h2, h3]

/-- Case analysis of the three-attempt retry loop: it stops at the first
success, having slept 2s (then 4s) between the attempts made so far; when
everything fails it ends in the third attempt's error. -/
theorem retry3_shape (f : Nat → Except String Unit) :
    (∃ v, retryGo f 3 3 1 0 [] none =
      { attemptsMade := 1, sleeps := [], result := Except.ok v }) ∨
    (∃ v, retryGo f 3 3 1 0 [] none =
      { attemptsMade := 2, sleeps := [2000], result := Except.ok v }) ∨
    (∃ v, retryGo f 3 3 1 0 [] none =
      { attemptsMade := 3, sleeps := [2000, 4000], result := Except.ok v }) ∨
    (∃ e3, f 3 = Except.error e3 ∧ retryGo f 3 3 1 0 [] none =
      { attemptsMade := 3, sleeps := [2000, 4000], result := Except.error e3 }) := by
  cases h1 : f 1 with
  | ok v => exact Or.inl ⟨v, by norm_num [retryGo, h1]⟩
  | error e1 =>
    cases h2 : f 2 with
    | ok v => exact Or.inr (Or.inl ⟨v, by norm_num [retryGo, h1, h2]⟩)
    | error e2 =>
      cases h3 : f 3 with
      | ok v => exact Or.inr (Or.inr (Or.inl ⟨v, by norm_num [retryGo, h1, h2, h3]⟩))
      | error e3 =>
        exact Or.inr (Or.inr (Or.inr ⟨e3, rfl, retry3_allfail f e1 e2 e3 h1 h2 h3⟩))

/-- C3 counterexample: when every attempt fails, `processRssFeed` sleeps 2s and
4s between its three attempts — the claimed third backoff value of 8s never
occurs, because there is no fourth attempt after which to sleep. -/
theorem processRssFeed_sleeps_counterexample :
    (processRssFeedTrace (fun _ => Except.error "HTTP 500")).sleeps = [2000, 4000] ∧
    (processRssFeedTrace (fun _ => Except.error "HTTP 500")).sleeps ≠ [2000, 4000, 8000] ∧
    8000 ∉ (processRssFeedTrace (fun _ => Except.error "HTTP 500")).sleeps := by
  refine ⟨?_, ?_, ?_⟩ <;> decide

/-- C3 (amended): `processRssFeed` makes at most 3 attempts, sleeping 2s then
4s between consecutive attempts (the exponential schedule `2^attempt` seconds;
an 8s wait never occurs since there is no fourth attempt); when all three
attempts fail it surfaces the third attempt's error; the pipeline driver
processes every URL regardless of outcomes instead of aborting; and the media
downloader runs the identical 3-attempt backoff loop per episode with a
non-empty enclosure URL. -/
theorem processRssFeed_retryPolicy (f g : Nat → Except String Unit)
    (o : String → Except String Unit) (urls : List String) (ep : Episode)
    (u : String) (hu : ¬ u = "") (henc : ep.enclosureUrl = some u) :
    (processRssFeedTrace f).attemptsMade ≤ 3 ∧
    (processRssFeedTrace f).sleeps =
      [2000, 4000].take ((processRssFeedTrace f).attemptsMade - 1) ∧
    (∀ e1 e2 e3, f 1 = Except.error e1 → f 2 = Except.error e2 →
      f 3 = Except.error e3 →
      processRssFeedTrace f =
        { attemptsMade := 3, sleeps := [2000, 4000], result := Except.error e3 }) ∧
    (runFetchPipeline o urls).map Prod.fst = urls ∧
    downloadAndUploadEpisodeTrace ep g = processRssFeedTrace g := by
  refine ⟨?_, ?_, ?_, ?_, ?_⟩
  · rcases retry3_shape f with ⟨v, hv⟩ | ⟨v, hv⟩ | ⟨v, hv⟩ | ⟨e3, _, hv⟩ <;>
      rw [processRssFeedTrace, hv] <;> norm_num
  · rcases retry3_shape f with ⟨v, hv⟩ | ⟨v, hv⟩ | ⟨v, hv⟩ | ⟨e3, _, hv⟩ <;>
      rw [processRssFeedTrace, hv] <;> rfl
  · intro e1 e2 e3 h1 h2 h3
    rw [processRssFeedTrace, retry3_allfail f e1 e2 e3 h1 h2 h3]
  · induction urls with
    | nil => rfl
    | cons uu rest ih => rw [runFetchPipeline, List.map_cons, ih]
  · simp only [downloadAndUploadEpisodeTrace, henc]
    rw [if_neg hu, processRssFeedTrace]

/-- Witness for `processRssFeed_retryPolicy` at concrete outcome functions and
a concrete episode. -/
theorem processRssFeed_retryPolicy_witness :
    downloadAndUploadEpisodeTrace (pendingEpisode "x" (some "https://m.example/a.mp3"))
        (fun _ => Except.error "boom") =
      processRssFeedTrace (fun _ => Except.error "boom") :=
  (processRssFeed_retryPolicy (fun _ => Except.error "boom")
    (fun _ => Except.error "boom") (fun _ => Except.ok ()) ["a"]
    (pendingEpisode "x" (some "https://m.example/a.mp3"))
    "https://m.example/a.mp3" (by decide) rfl).2.2.2.2

/-! ## C4: per-episode failure isolation in the download batch -/

/-- A map whose function preserves a Boolean predicate and fixes the elements
satisfying it leaves the filtered sublist unchanged. -/
theorem filter_map_of_fix {α : Type} (P : α → Bool) (g : α → α)
    (hPg : ∀ x, P (g x) = P x) (hfix : ∀ x, P x = true → g x = x) :
    ∀ db : List α, (db.map g).filter P = db.filter P
  | [] => rfl
  | a :: t => by
    rw [List.map_cons, List.filter_cons, List.filter_cons, hPg a]
    by_cases ha : P a = true
    · rw [if_pos ha, if_pos ha, hfix a ha, filter_map_of_fix P g hPg hfix t]
    · rw [if_neg ha, if_neg ha, filter_map_of_fix P g hPg hfix t]

/-- `markDownloadSuccess` preserves the id column. -/
theorem markDownloadSuccess_ids (db : List Episode) (i p : String) (now : Nat) :
    (markDownloadSuccess db i p now).map (fun e => e.id) = db.map (fun e => e.id) :=
  map_key_map (fun e => e.id) _
    (fun x => by
      by_cases hx : x.id = i
      · rw [if_pos hx]
      · rw [if_neg hx])
    db

/-- `markDownloadFailed` preserves the id column. -/
theorem markDownloadFailed_ids (db : List Episode) (i : String) (now : Nat) :
    (markDownloadFailed db i now).map (fun e => e.id) = db.map (fun e => e.id) :=
  map_key_map (fun e => e.id) _
    (fun x => by
      by_cases hx : x.id = i
      · rw [if_pos hx]
      · rw [if_neg hx])
    db

/-- Marking some other id leaves the rows with id `i` untouched. -/
theorem markDownloadSuccess_filter_other (db : List Episode) (j p : String) (now : Nat)
    (i : String) (hji : ¬ j = i) :
    (markDownloadSuccess db j p now).filter (fun r => r.id = i) =
      db.filter (fun r => r.id = i) :=
  filter_map_of_fix _ _
    (fun x => by
      by_cases hx : x.id = j
      · rw [if_pos hx]
      · rw [if_neg hx])
    (fun x hx => by
      rw [if_neg]
      intro hxj
      exact hji (hxj.symm.trans (of_decide_eq_true hx)))
    db

/-- Marking some other id as failed leaves the rows with id `i` untouched. -/
theorem markDownloadFailed_filter_other (db : List Episode) (j : String) (now : Nat)
    (i : String) (hji : ¬ j = i) :
    (markDownloadFailed db j now).filter (fun r => r.id = i) =
      db.filter (fun r => r.id = i) :=
  filter_map_of_fix _ _
    (fun x => by
      by_cases hx : x.id = j
      · rw [if_pos hx]
      · rw [if_neg hx])
    (fun x hx => by
      rw [if_neg]
      intro hxj
      exact hji (hxj.symm.trans (of_decide_eq_true hx)))
    db

/-- After `markDownloadFailed db i now`, every row with id `i` has
`downloadSuccess = false`, and if id `i` occurs at all there is such a row. -/
theorem markDownloadFailed_sets (db : List Episode) (i : String) (now : Nat) :
    (∀ r ∈ markDownloadFailed db i now, r.id = i → r.downloadSuccess = false) ∧
    (i ∈ db.map (fun e => e.id) →
      ∃ r ∈ markDownloadFailed db i now, r.id = i ∧ r.downloadSuccess = false) := by
  constructor
  · intro r hr hri
    rw [markDownloadFailed] at hr
    obtain ⟨x, hx, hgx⟩ := List.mem_map.1 hr
    by_cases hxi : x.id = i
    · rw [if_pos hxi] at hgx
      rw [← hgx]
    · rw [if_neg hxi] at hgx
      exact absurd (hgx ▸ hri) hxi
  · intro hi
    obtain ⟨x, hx, hxi⟩ := List.mem_map.1 hi
    refine ⟨{ x with downloadSuccess := false, updatedAt := now }, ?_, hxi, rfl⟩
    rw [markDownloadFailed]
    exact List.mem_map.2 ⟨x, hx, by rw [if_pos hxi]⟩

/-- The success and failure counts of the batch loop add up to the length of
the pending list: no episode aborts the batch. -/
theorem processPending_counts (att : Episode → Nat → Except String Unit) (now : Nat) :
    ∀ (pending db : List Episode),
      (processPendingEpisodes att now pending db).2.1 +
        (processPendingEpisodes att now pending db).2.2 = pending.length
  | [], db => rfl
  | e :: rest, db => by
    cases hres : (downloadAndUploadEpisodeTrace e (att e)).result with
    | ok v =>
      simp only [processPendingEpisodes, hres]
      have := processPending_counts att now rest
        (markDownloadSuccess db e.id
          (e.id ++ "." ++ determineFileExtension (e.enclosureUrl.getD "") e.enclosureType)
          now)
      simp only [List.length_cons]
      omega
    | error msg =>
      simp only [processPendingEpisodes, hres]
      have := processPending_counts att now rest (markDownloadFailed db e.id now)
      simp only [List.length_cons]
      omega

/-- The batch loop preserves the id column of the table. -/
theorem processPending_ids (att : Episode → Nat → Except String Unit) (now : Nat) :
    ∀ (pending db : List Episode),
      (processPendingEpisodes att now pending db).1.map (fun e => e.id) =
        db.map (fun e => e.id)
  | [], db => rfl
  | e :: rest, db => by
    cases hres : (downloadAndUploadEpisodeTrace e (att e)).result with
    | ok v =>
      simp only [processPendingEpisodes, hres]
      rw [processPending_ids att now rest, markDownloadSuccess_ids]
    | error msg =>
      simp only [processPendingEpisodes, hres]
      rw [processPending_ids att now rest, markDownloadFailed_ids]

/-- The batch loop leaves rows untouched whose id is hit by no pending
episode. -/
theorem processPending_frame (att : Episode → Nat → Except String Unit) (now : Nat)
    (i : String) :
    ∀ (pending db : List Episode), (∀ p ∈ pending, ¬ p.id = i) →
      (processPendingEpisodes att now pending db).1.filter (fun r => r.id = i) =
        db.filter (fun r => r.id = i)
  | [], db, _ => rfl
  | e :: rest, db, hnone => by
    have hrest : ∀ p ∈ rest, ¬ p.id = i :=
      fun p hp => hnone p (List.mem_cons_of_mem e hp)
    have hei : ¬ e.id = i := hnone e (List.mem_cons_self e rest)
    cases hres : (downloadAndUploadEpisodeTrace e (att e)).result with
    | ok v =>
      simp only [processPendingEpisodes, hres]
      rw [processPending_frame att now i rest _ hrest, markDownloadSuccess_filter_other]
      exact hei
    | error msg =>
      simp only [processPendingEpisodes, hres]
      rw [processPending_frame att now i rest _ hrest, markDownloadFailed_filter_other]
      exact hei

/-- Splitting the pending list splits the batch loop. -/
theorem processPending_append (att : Episode → Nat → Except String Unit) (now : Nat) :
    ∀ (l1 l2 db : List Episode),
      (processPendingEpisodes att now (l1 ++ l2) db).1 =
        (processPendingEpisodes att now l2 (processPendingEpisodes att now l1 db).1).1
  | [], l2, db => rfl
  | e :: rest, l2, db => by
    cases hres : (downloadAndUploadEpisodeTrace e (att e)).result with
    | ok v =>
      simp only [List.cons_append, processPendingEpisodes, hres]
      exact processPending_append att now rest l2 _
    | error msg =>
      simp only [List.cons_append, processPendingEpisodes, hres]
      exact processPending_append att now rest l2 _

/-- An episode with a missing/blank enclosure URL, or whose three download
attempts all fail, ends its `downloadAndUploadEpisode` call in an error. -/
theorem downloadEpisode_fails (e : Episode) (att : Nat → Except String Unit)
    (hfail : (e.enclosureUrl = none ∨ e.enclosureUrl = some "") ∨
      (∀ k, 1 ≤ k → k ≤ 3 → ∃ er, att k = Except.error er)) :
    ∃ msg, (downloadAndUploadEpisodeTrace e att).result = Except.error msg := by
  rcases hfail with (henc | henc) | hall
  · exact ⟨"No enclosure URL found", by simp [downloadAndUploadEpisodeTrace, henc]⟩
  · exact ⟨"No enclosure URL found", by simp [downloadAndUploadEpisodeTrace, henc]⟩
  · obtain ⟨e1, h1⟩ := hall 1 (by norm_num) (by norm_num)
    obtain ⟨e2, h2⟩ := hall 2 (by norm_num) (by norm_num)
    obtain ⟨e3, h3⟩ := hall 3 (by norm_num) (by norm_num)
    cases henc : e.enclosureUrl with
    | none =>
      exact ⟨"No enclosure URL found", by simp [downloadAndUploadEpisodeTrace, henc]⟩
    | some u =>
      by_cases hu : u = ""
      · exact ⟨"No enclosure URL found",
          by simp [downloadAndUploadEpisodeTrace, henc, hu]⟩
      · refine ⟨e3, ?_⟩
        simp only [downloadAndUploadEpisodeTrace, henc]
        rw [if_neg hu, retry3_allfail att e1 e2 e3 h1 h2 h3]

/-- C4: for every pending episode whose enclosure URL is missing/blank or all
of whose three download attempts fail, the batch loop marks that episode's
download state failed (its row ends with `downloadSuccess = false`) and
continues: the success and failure counts still add up to the full pending
list, so no single episode aborts the batch. The hypothesis is the
primary-key uniqueness of the table. -/
theorem downloadBatch_isolatesFailures (att : Episode → Nat → Except String Unit)
    (db : List Episode) (now : Nat)
    (hIds : (db.map (fun x => x.id)).Nodup)
    (e : Episode) (he : e ∈ getUndownloadedEpisodes db)
    (hfail : (e.enclosureUrl = none ∨ e.enclosureUrl = some "") ∨
      (∀ k, 1 ≤ k → k ≤ 3 → ∃ er, att e k = Except.error er)) :
    (∃ r ∈ (downloadAllUndownloadedEpisodes att now db).1,
      r.id = e.id ∧ r.downloadSuccess = false) ∧
    (∀ r ∈ (downloadAllUndownloadedEpisodes att now db).1,
      r.id = e.id → r.downloadSuccess = false) ∧
    (downloadAllUndownloadedEpisodes att now db).2.1 +
      (downloadAllUndownloadedEpisodes att now db).2.2 =
      (getUndownloadedEpisodes db).length := by
  have hcounts := processPending_counts att now (getUndownloadedEpisodes db) db
  have hpendsub : (getUndownloadedEpisodes db).Sublist db :=
    List.Sublist.trans (List.take_sublist 1000 _) (List.filter_sublist db)
  have hpendids : ((getUndownloadedEpisodes db).map (fun x => x.id)).Nodup :=
    List.Nodup.sublist (List.Sublist.map (fun x => x.id) hpendsub) hIds
  have hedb : e ∈ db := hpendsub.subset he
  obtain ⟨l1, l2, hsplit⟩ := List.append_of_mem he
  have hl2 : ∀ p ∈ l2, ¬ p.id = e.id := by
    intro p hp hpe
    rw [hsplit, List.map_append, List.map_cons] at hpendids
    have hcons := (List.Nodup.of_append_right hpendids)
    rw [List.nodup_cons] at hcons
    exact hcons.1 (hpe ▸ List.mem_map_of_mem (fun x => x.id) hp)
  obtain ⟨msg, hmsg⟩ := downloadEpisode_fails e (att e) hfail
  -- run the loop up to e, mark e failed, then run the rest
  have hrun : (downloadAllUndownloadedEpisodes att now db).1 =
      (processPendingEpisodes att now l2
        (markDownloadFailed (processPendingEpisodes att now l1 db).1 e.id now)).1 := by
    rw [downloadAllUndownloadedEpisodes, hsplit, processPending_append]
    simp only [processPendingEpisodes, hmsg]
  have hids1 : e.id ∈ (processPendingEpisodes att now l1 db).1.map (fun x => x.id) := by
    rw [processPending_ids]
    exact List.mem_map_of_mem (fun x => x.id) hedb
  obtain ⟨hallfalse, hexists⟩ :=
    markDownloadFailed_sets (processPendingEpisodes att now l1 db).1 e.id now
  have hfilter : (downloadAllUndownloadedEpisodes att now db).1.filter
      (fun r => r.id = e.id) =
      (markDownloadFailed (processPendingEpisodes att now l1 db).1 e.id now).filter
        (fun r => r.id = e.id) := by
    rw [hrun]
    exact processPending_frame att now e.id l2 _ hl2
  refine ⟨?_, ?_, hcounts⟩
  · obtain ⟨r, hr, hri, hrds⟩ := hexists hids1
    have hrfilter : r ∈ (downloadAllUndownloadedEpisodes att now db).1.filter
        (fun x => x.id = e.id) := by
      rw [hfilter]
      exact List.mem_filter.2 ⟨hr, decide_eq_true hri⟩
    exact ⟨r, List.mem_of_mem_filter hrfilter, hri, hrds⟩
  · intro r hr hri
    have hrfilter : r ∈ (markDownloadFailed (processPendingEpisodes att now l1 db).1
        e.id now).filter (fun x => x.id = e.id) := by
      rw [← hfilter]
      exact List.mem_filter.2 ⟨hr, decide_eq_true hri⟩
    exact hallfalse r (List.mem_of_mem_filter hrfilter) hri

/-- Witness for `downloadBatch_isolatesFailures` on a one-row table whose
episode lacks an enclosure URL. -/
theorem downloadBatch_isolatesFailures_witness :
    (downloadAllUndownloadedEpisodes (fun _ _ => Except.ok ()) 7
        [pendingEpisode "x" none]).2.1 +
      (downloadAllUndownloadedEpisodes (fun _ _ => Except.ok ()) 7
        [pendingEpisode "x" none]).2.2 =
      (getUndownloadedEpisodes [pendingEpisode "x" none]).length :=
  (downloadBatch_isolatesFailures (fun _ _ => Except.ok ()) [pendingEpisode "x" none] 7
    (by decide) (pendingEpisode "x" none) (by decide) (Or.inl (Or.inl rfl))).2.2

/-! ## C5: feed content validation -/

/-- C5 counterexample: a trimmed body beginning with `<?XML` starts with the
XML declaration case-insensitively, yet the attempt rejects it as invalid
content: the validation's `startsWith` checks are case-sensitive (only the
later `cleanXmlContent` regex is case-insensitive, and it is never reached). -/
theorem feedValidation_caseSensitive_counterexample :
    jsStartsWith (jsToLower (jsTrim " <?XML version=1.0?><rss>")) "<?xml" = true ∧
    attemptFetchParse (htmlResponse " <?XML version=1.0?><rss>")
        (fun _ => Except.ok (titleOnlyFeed none)) =
      Except.error
        (FeedError.invalidContent "text/html" "<?XML version=1.0?><rss>") :=
  ⟨by decide, rfl⟩

/-- C5 (amended): with an HTTP-ok response whose trimmed body does not start
with `<?xml`, `<rss` or `<feed` — all three checks exact and case-sensitive —
the attempt fails with an invalid-content error carrying the content-type
header and the first 100 characters of the trimmed body, and the outcome does
not depend on the parser: rejection happens before any parsing is attempted. -/
theorem feedValidation_rejects_before_parse (resp : FetchResponse)
    (parse parse2 : String → Except String Feed)
    (hok : resp.ok = true)
    (hno : (jsStartsWith (jsTrim resp.body) "<?xml" ||
      jsStartsWith (jsTrim resp.body) "<rss" ||
      jsStartsWith (jsTrim resp.body) "<feed") = false) :
    attemptFetchParse resp parse =
      Except.error (FeedError.invalidContent (resp.contentType.getD "")
        (jsTake 100 (jsTrim resp.body))) ∧
    attemptFetchParse resp parse = attemptFetchParse resp parse2 := by
  constructor <;> simp [attemptFetchParse, hok, hno]

/-- Witness for `feedValidation_rejects_before_parse`: an HTML body is
rejected identically under two different parsers. -/
theorem feedValidation_rejects_before_parse_witness :
    attemptFetchParse (htmlResponse "<html></html>")
        (fun _ => Except.ok (titleOnlyFeed none)) =
      attemptFetchParse (htmlResponse "<html></html>")
        (fun _ => Except.error "parser crashed") :=
  (feedValidation_rejects_before_parse (htmlResponse "<html></html>")
    (fun _ => Except.ok (titleOnlyFeed none)) (fun _ => Except.error "parser crashed")
    rfl (by decide)).2

end PodcastRssFetch
